import Mathlib

/-!
# Verification of the MapView tile widget

A shallow embedding of `src/__init__.py` (the `mapview` package): the
Web-Mercator projection of `MapSource`, the tile cache-file naming, the
`Downloader` job/drain functions, and the `MapView` viewport operations
(`load_visible_tiles` with its eviction loop and spiral traversal,
`set_zoom_at`, `remove_all_tiles`).

Modelling conventions:
* Python floats are idealised as `ℝ` in the projection functions (which use
  `tan`, `log`, `atan`, `exp`) and as `ℚ` in the viewport state, where all
  arithmetic is ratios of integers and must stay executable.
* Python 2 integer `/` is floor division, matching `Int`'s `/` here.
* Tile state strings (`"loading"`, `"done"`) are kept as `String`.
* The Kivy canvas, the `pos`/`size` graphics attributes, the `lon`/`lat`
  display properties and network I/O are not modelled; the `_tiles` list,
  the `_tilemap` key map and the disk-cache file set are.
-/

open Real

/-- `clamp` from the source: `max(minimum, min(x, maximum))`. -/
def clamp {α : Type} [LinearOrder α] (x minimum maximum : α) : α :=
  max minimum (min x maximum)

/-! ## Decimal rendering of integers (Python `str` formatting) -/

/-- A decimal digit character, `chr(48 + d)` for `d < 10`. -/
def digitChar (d : ℕ) : Char := Char.ofNat (48 + d)

/-- Decimal representation of a natural number, as Python `"{}".format(n)`
produces it: most significant digit first, no leading zeros. -/
def natRepr (n : ℕ) : List Char :=
  if _h : n < 10 then [digitChar n]
  else natRepr (n / 10) ++ [digitChar (n % 10)]
termination_by n
decreasing_by exact Nat.div_lt_self (by omega) (by omega)

/-- Decimal representation of an integer, as Python `str(n)` produces it. -/
def intRepr (n : ℤ) : List Char :=
  if n < 0 then '-' :: natRepr n.natAbs else natRepr n.toNat

/-- The cache filename of `MapSource.cache_fmt`:
`"{cache_key}_{zoom}_{tile_x}_{tile_y}.{image_ext}"`. -/
def cacheFileName (key : String) (zoom : ℕ) (x y : ℤ) (ext : String) : String :=
  key ++ "_" ++ ⟨natRepr zoom⟩ ++ "_" ++ ⟨intRepr x⟩ ++ "_" ++ ⟨intRepr y⟩
    ++ "." ++ ext

/-! ## MapSource -/

/-- The static configuration stored by `MapSource.__init__`. -/
structure MapSource where
  url : String
  cache_key : String
  min_zoom : ℤ
  max_zoom : ℤ
  tile_size : ℚ
  image_ext : String
  subdomains : String
deriving DecidableEq, Repr

/-- The `MapSource()` default constructor arguments. -/
def MapSource.osmDefault : MapSource :=
  { url := "http://tile.openstreetmap.org"
    cache_key := "osm"
    min_zoom := 0
    max_zoom := 19
    tile_size := 256
    image_ext := "png"
    subdomains := "abc" }

/-- `MapSource.get_min_zoom`: returns the constant `0`, ignoring the
configured `min_zoom` field. -/
def MapSource.get_min_zoom (_ : MapSource) : ℤ := 0

/-- `MapSource.get_max_zoom`: returns the constant `19`, ignoring the
configured `max_zoom` field. -/
def MapSource.get_max_zoom (_ : MapSource) : ℤ := 19

/-- `MapSource.get_row_count`: `1` at zoom 0, else `2 << (zoom - 1)`. -/
def MapSource.get_row_count (_ : MapSource) (zoom : ℕ) : ℕ :=
  if zoom = 0 then 1 else 2 <<< (zoom - 1)

/-- `MapSource.get_col_count`: `1` at zoom 0, else `2 << (zoom - 1)`. -/
def MapSource.get_col_count (_ : MapSource) (zoom : ℕ) : ℕ :=
  if zoom = 0 then 1 else 2 <<< (zoom - 1)

/-- `MapSource.get_x`: longitude to x pixel.
`((clamp(lon) + 180) / 360 * 2**zoom) * tile_size`. -/
noncomputable def MapSource.get_x (s : MapSource) (zoom : ℕ) (lon : ℝ) : ℝ :=
  (clamp lon (-180) 180 + 180) / 360 * 2 ^ zoom * (s.tile_size : ℝ)

/-- `MapSource.get_y`: latitude to y pixel; note the sign flip on `lat`.
`lat = clamp(-lat); lat = lat*pi/180;
((1 - log(tan(lat) + 1/cos(lat))/pi) / 2 * 2**zoom) * tile_size`. -/
noncomputable def MapSource.get_y (s : MapSource) (zoom : ℕ) (lat : ℝ) : ℝ :=
  (1 - Real.log (Real.tan (clamp (-lat) (-90) 90 * π / 180)
      + 1 / Real.cos (clamp (-lat) (-90) 90 * π / 180)) / π) / 2 * 2 ^ zoom
    * (s.tile_size : ℝ)

/-- `MapSource.get_lon`: x pixel to longitude.
`clamp((x / tile_size) / 2**zoom * 360 - 180)`. -/
noncomputable def MapSource.get_lon (s : MapSource) (zoom : ℕ) (x : ℝ) : ℝ :=
  clamp (x / (s.tile_size : ℝ) / 2 ^ zoom * 360 - 180) (-180) 180

/-- `MapSource.get_lat`: y pixel to latitude, with the leading minus.
`n = pi - 2*pi*(y/tile_size)/2**zoom;
clamp(-180/pi * atan(0.5*(exp(n) - exp(-n))))`. -/
noncomputable def MapSource.get_lat (s : MapSource) (zoom : ℕ) (y : ℝ) : ℝ :=
  clamp (-(180 / π) * Real.arctan (0.5
      * (Real.exp (π - 2 * π * (y / (s.tile_size : ℝ)) / 2 ^ zoom)
        - Real.exp (-(π - 2 * π * (y / (s.tile_size : ℝ)) / 2 ^ zoom)))))
    (-90) 90

/-! ## Tile and the Downloader -/

/-- A tile record: the attributes set by `MapView.load_tile_for_source`
(the graphics `pos`/`size` attributes are not modelled). -/
structure Tile where
  tile_x : ℤ
  tile_y : ℤ
  zoom : ℕ
  state : String
  source : Option String
deriving DecidableEq, Repr

/-- `Tile.cache_fn`: `join(CACHE_DIR, cache_fmt.format(...))`. -/
def Tile.cache_fn (s : MapSource) (t : Tile) : String :=
  "cache/" ++ cacheFileName s.cache_key t.zoom t.tile_x t.tile_y s.image_ext

/-- `Downloader._load_tile`, the worker body, as a function from the tile to
the job result.  A tile already marked `"done"` yields no result; otherwise
the job ends with `(tile, cache_fn)` — immediately on a cache hit, after
writing the file on a successful download.  A failed download raises, which
the drain loop turns into a skipped result, so failures are also `none`. -/
def Downloader.load_tile (s : MapSource) (t : Tile) : Option (Tile × String) :=
  if t.state = "done" then none
  else some (t, t.cache_fn s)

/-- `MapSource.fill_tile`: nothing happens for a tile already `"done"`;
if the cache file exists the tile's `source` is set to it; otherwise the
tile is handed to the downloader (the returned flag records that a fetch
job was submitted). -/
def MapSource.fill_tile (s : MapSource) (cache : List String) (t : Tile) :
    Tile × Bool :=
  if t.state = "done" then (t, false)
  else if t.cache_fn s ∈ cache then
    ({ t with source := some (t.cache_fn s) }, false)
  else (t, true)

/-- The per-future body of `Downloader._check_executor` (lines 98–101): a
`None` result is skipped; otherwise the tile of the result gets
`tile.source = fn`.  No other field of the tile is read or written. -/
def Downloader.check_executor_result (r : Option (Tile × String)) :
    Option Tile :=
  match r with
  | none => none
  | some (t, fn) => some { t with source := some fn }

/-! ## The spiral traversal of `load_visible_tiles` -/

/-- `dirs = [0, 1, 0, -1, 0]`. -/
def dirList : List ℤ := [0, 1, 0, -1, 0]

/-- Per-step x increment: `dirs[turn % 4 + 1]`. -/
def spiralDx (turn : ℕ) : ℤ := dirList.getD (turn % 4 + 1) 0

/-- Per-step y increment: `dirs[turn % 4]`. -/
def spiralDy (turn : ℕ) : ℤ := dirList.getD (turn % 4) 0

/-- The tile-key of `tile_map_set` / `tile_in_tile_map`:
`tile_y * get_col_count(zoom) + tile_x`. -/
def tileKey (cols x y : ℤ) : ℤ := y * cols + x

/-- The sequence of positions at which one arm of the spiral performs its
guard check: the current cell, then each cell reached by adding the step. -/
def armVisit (x y dx dy : ℤ) : ℕ → List (ℤ × ℤ)
  | 0 => []
  | i + 1 => (x, y) :: armVisit (x + dx) (y + dy) dx dy i

/-- All positions checked by the remaining spiral iterations of
`load_visible_tiles`, starting from a mid-loop state. -/
def spiralVisits (armMax : ℕ) (x y : ℤ) (armSize turn : ℕ) : List (ℤ × ℤ) :=
  if armSize < armMax then
    armVisit x y (spiralDx turn) (spiralDy turn) armSize ++
      spiralVisits armMax (x + armSize * spiralDx turn)
        (y + armSize * spiralDy turn)
        (if turn % 2 = 1 then armSize + 1 else armSize) (turn + 1)
  else []
termination_by 2 * (armMax - armSize) + (turn + 1) % 2
decreasing_by simp_wf; split <;> omega

/-- One arm of the spiral with the load guard of `load_visible_tiles`:
a cell is loaded when its key is not in the tile map and it lies inside
`[xf, xl) × [yf, yl)`; loading records the key (`tile_map_set(x, y, True)`)
and appends the cell (the `load_tile` call).  Returns the updated tile map
and accumulated load list. -/
def armLoad (xf xl yf yl cols : ℤ) :
    ℤ → ℤ → ℤ → ℤ → ℕ → List ℤ → List (ℤ × ℤ) → List ℤ × List (ℤ × ℤ)
  | _, _, _, _, 0, tmap, acc => (tmap, acc)
  | x, y, dx, dy, i + 1, tmap, acc =>
    if tileKey cols x y ∉ tmap ∧ yf ≤ y ∧ y < yl ∧ xf ≤ x ∧ x < xl then
      armLoad xf xl yf yl cols (x + dx) (y + dy) dx dy i
        (tileKey cols x y :: tmap) (acc ++ [(x, y)])
    else
      armLoad xf xl yf yl cols (x + dx) (y + dy) dx dy i tmap acc

/-- The `while arm_size < arm_max` loop of `load_visible_tiles`. -/
def spiralLoad (armMax : ℕ) (xf xl yf yl cols : ℤ) (x y : ℤ)
    (armSize turn : ℕ) (tmap : List ℤ) (acc : List (ℤ × ℤ)) :
    List ℤ × List (ℤ × ℤ) :=
  if armSize < armMax then
    let p := armLoad xf xl yf yl cols x y (spiralDx turn) (spiralDy turn)
      armSize tmap acc
    spiralLoad armMax xf xl yf yl cols (x + armSize * spiralDx turn)
      (y + armSize * spiralDy turn)
      (if turn % 2 = 1 then armSize + 1 else armSize) (turn + 1) p.1 p.2
  else (tmap, acc)
termination_by 2 * (armMax - armSize) + (turn + 1) % 2
decreasing_by simp_wf; split <;> omega

/-! ## MapView state and operations -/

/-- The `MapView` state: viewport offset and widget size (Kivy floats,
modelled as `ℚ`), the current zoom, the active tile list `_tiles`, the
tile-key map `_tilemap` (as its key set), and the set of files present in
the on-disk cache directory (read by `fill_tile`; written only by worker
threads, never by the operations modelled here). -/
structure MapViewState where
  map_source : MapSource
  zoom : ℕ
  viewport_x : ℚ
  viewport_y : ℚ
  width : ℚ
  height : ℚ
  tiles : List Tile
  tilemap : List ℤ
  cache : List String
deriving DecidableEq, Repr

namespace MapViewState

/-- The visible tile rectangle `(tile_x_first, tile_x_last, tile_y_first,
tile_y_last)` computed at the top of `load_visible_tiles`: `int(...)` on the
clamped nonnegative offsets is a floor, `int(ceil(...))` is a ceiling. -/
def visibleParams (st : MapViewState) : ℤ × ℤ × ℤ × ℤ :=
  let size := st.map_source.tile_size
  let maxXEnd : ℤ := (st.map_source.get_col_count st.zoom : ℤ)
  let maxYEnd : ℤ := (st.map_source.get_row_count st.zoom : ℤ)
  let xCount : ℤ := ⌈st.width / size⌉ + 1
  let yCount : ℤ := ⌈st.height / size⌉ + 1
  let xFirst : ℤ := ⌊clamp (st.viewport_x / size) 0 (maxXEnd : ℚ)⌋
  let yFirst : ℤ := ⌊clamp (st.viewport_y / size) 0 (maxYEnd : ℚ)⌋
  let xLast : ℤ := clamp (xFirst + xCount) xFirst maxXEnd
  let yLast : ℤ := clamp (yFirst + yCount) yFirst maxYEnd
  (xFirst, xLast, yFirst, yLast)

/-- The eviction loop of `load_visible_tiles` on the `_tiles` list: a tile
whose column or row is outside the rectangle has its state set to
`"done"`; the tile itself is never removed from the list.  (The `relocate`
position update touches only the unmodelled graphics `pos`.) -/
def evictTiles (xf xl yf yl : ℤ) (tiles : List Tile) : List Tile :=
  tiles.map fun t =>
    if t.tile_x < xf ∨ t.tile_x ≥ xl ∨ t.tile_y < yf ∨ t.tile_y ≥ yl then
      { t with state := "done" }
    else t

/-- The eviction loop's effect on `_tilemap`: `tile_map_set(x, y, False)`
pops the key of each out-of-rectangle tile. -/
def evictMap (xf xl yf yl cols : ℤ) (tiles : List Tile) (tmap : List ℤ) :
    List ℤ :=
  tiles.foldl
    (fun m t =>
      if t.tile_x < xf ∨ t.tile_x ≥ xl ∨ t.tile_y < yf ∨ t.tile_y ≥ yl then
        m.filter (fun k => k ≠ tileKey cols t.tile_x t.tile_y)
      else m)
    tmap

/-- The spiral phase of `load_visible_tiles` run on the post-eviction tile
map: start cell `(x_first + x_count/2 - 1, y_first + y_count/2 - 1)`
(Python floor division), `arm_max = max(x_count, y_count) + 2`, arm size 1,
turn 0, empty load accumulator. -/
def loadVisibleSpiral (st : MapViewState) : List ℤ × List (ℤ × ℤ) :=
  let p := st.visibleParams
  let xf := p.1
  let xl := p.2.1
  let yf := p.2.2.1
  let yl := p.2.2.2
  let cols : ℤ := (st.map_source.get_col_count st.zoom : ℤ)
  let xCount := xl - xf
  let yCount := yl - yf
  let tmap := evictMap xf xl yf yl cols st.tiles st.tilemap
  spiralLoad ((max xCount yCount).toNat + 2) xf xl yf yl cols
    (xf + xCount / 2 - 1) (yf + yCount / 2 - 1) 1 0 tmap []

/-- The cells passed to `load_tile` by one `load_visible_tiles` pass,
in request order. -/
def loadVisibleCells (st : MapViewState) : List (ℤ × ℤ) :=
  st.loadVisibleSpiral.2

/-- The tile object built by `load_tile_for_source` for cell `c`, before
`fill_tile` runs: state `"loading"`, no source yet. -/
def freshTile (st : MapViewState) (c : ℤ × ℤ) : Tile :=
  { tile_x := c.1, tile_y := c.2, zoom := st.zoom,
    state := "loading", source := none }

/-- `load_tile_for_source` followed by `fill_tile` for a freshly created
tile at cell `c`. -/
def fillNewTile (st : MapViewState) (c : ℤ × ℤ) : Tile :=
  (st.map_source.fill_tile st.cache (st.freshTile c)).1

/-- The fetch jobs one `load_visible_tiles` pass hands to
`Downloader.download`: the freshly created tiles for which `fill_tile`
took its download branch (state not `"done"`, cache file absent). -/
def loadVisibleDownloads (st : MapViewState) : List Tile :=
  (st.loadVisibleCells.map st.freshTile).filter
    fun t => (st.map_source.fill_tile st.cache t).2

/-- `MapView.load_visible_tiles`: evict, then load the spiral cells.  Each
loaded cell appends one new tile to `_tiles` (via `load_tile_for_source`)
and its key to `_tilemap` (via `tile_map_set`); `spiralLoad` threads the
key insertions, and the tile list records the same cells in the same
order. -/
def load_visible_tiles (st : MapViewState) : MapViewState :=
  let p := st.visibleParams
  let s := st.loadVisibleSpiral
  { st with
    tiles := evictTiles p.1 p.2.1 p.2.2.1 p.2.2.2 st.tiles
      ++ s.2.map st.fillNewTile
    tilemap := s.1 }

/-- `MapView.remove_all_tiles`: clears the canvas and the `_tiles` list and
resets `_tilemap` (each removed tile also gets state `"done"`, which only
matters through references still held by in-flight jobs). -/
def remove_all_tiles (st : MapViewState) : MapViewState :=
  { st with tiles := [], tilemap := [] }

/-- `MapView._get_x_y_for_zoom_level`:
`deltazoom = 2**(zoom - self.zoom); n = (viewport + anchor)*deltazoom - anchor`. -/
def getXYForZoomLevel (st : MapViewState) (zoom : ℤ) (x y : ℚ) : ℚ × ℚ :=
  let deltazoom : ℚ := 2 ^ (zoom - (st.zoom : ℤ))
  ((st.viewport_x + x) * deltazoom - x, (st.viewport_y + y) * deltazoom - y)

/-- `MapView.set_zoom_at`: clamp the requested zoom into
`[get_min_zoom(), get_max_zoom()] = [0, 19]`; a no-op when the clamped
zoom equals the current one; otherwise recompute the viewport offset with
the old zoom, switch zoom, drop all tiles and reload. -/
def set_zoom_at (st : MapViewState) (zoom : ℤ) (x y : ℚ) : MapViewState :=
  let z := clamp zoom st.map_source.get_min_zoom st.map_source.get_max_zoom
  if z = (st.zoom : ℤ) then st
  else
    let n := st.getXYForZoomLevel z x y
    load_visible_tiles (remove_all_tiles
      { st with zoom := z.toNat, viewport_x := n.1, viewport_y := n.2 })

end MapViewState

/-- The range test of the spiral load guard: the cell lies inside the
half-open visible rectangle `[xf, xl) × [yf, yl)`. -/
def inRect (xf xl yf yl : ℤ) (q : ℤ × ℤ) : Prop :=
  xf ≤ q.1 ∧ q.1 < xl ∧ yf ≤ q.2 ∧ q.2 < yl

instance (xf xl yf yl : ℤ) (q : ℤ × ℤ) :
    Decidable (inRect xf xl yf yl q) := by
  unfold inRect; infer_instance

/-- Invariant tying the spiral's tile map to its load accumulator: loads
are distinct, in the rectangle, and in one-to-one correspondence with the
keys present in the map. -/
def SpiralInv (xf xl yf yl cols : ℤ) (tmap : List ℤ)
    (acc : List (ℤ × ℤ)) : Prop :=
  acc.Nodup ∧ (∀ q ∈ acc, inRect xf xl yf yl q) ∧
    (∀ k ∈ tmap, ∃ q ∈ acc, tileKey cols q.1 q.2 = k) ∧
    (∀ q ∈ acc, tileKey cols q.1 q.2 ∈ tmap)

/-- The spiral position after `k` completed pairs of arms (sizes
`1, 1, 2, 2, …`), relative to the start cell `c`. -/
def sigmaPos (c : ℤ × ℤ) (k : ℕ) : ℤ × ℤ :=
  if k % 2 = 1 then (c.1 + ((k + 1) / 2 : ℕ), c.2 + ((k + 1) / 2 : ℕ))
  else (c.1 - (k / 2 : ℕ), c.2 - (k / 2 : ℕ))

/-- The rectangle of cells visited by the first `k` pairs of spiral arms
started at `c`. -/
def region (c : ℤ × ℤ) (k : ℕ) (q : ℤ × ℤ) : Prop :=
  c.1 - (k / 2 : ℕ) ≤ q.1 ∧ q.1 ≤ c.1 + ((k + 1) / 2 : ℕ) ∧
    c.2 - (((k - 1) / 2 : ℕ) : ℤ) ≤ q.2 ∧ q.2 ≤ c.2 + (k / 2 : ℕ)

/-- A concrete example state (negative x offset, y offset past the map
edge at zoom 2) used to instantiate general theorems. -/
def c4State : MapViewState :=
  { map_source := MapSource.osmDefault, zoom := 2, viewport_x := -100,
    viewport_y := 5000, width := 800, height := 600, tiles := [],
    tilemap := [], cache := [] }

/-- A concrete example state whose single visible cell `(0, 0)` (zoom 0,
1×1 grid) is already present in the tile map with a matching `"done"`
tile, used to instantiate the repeated-pass theorem. -/
def c6State : MapViewState :=
  { map_source := MapSource.osmDefault, zoom := 0, viewport_x := 0,
    viewport_y := 0, width := 0, height := 0,
    tiles := [{ tile_x := 0, tile_y := 0, zoom := 0, state := "done",
                source := some "cache/osm_0_0_0.png" }],
    tilemap := [0], cache := ["cache/osm_0_0_0.png"] }

/-- A concrete example state holding one active tile at column 5 — outside
the visible rectangle `[0,1) × [0,1)` of its zoom-0 viewport — used to
instantiate the eviction theorem. -/
def c10Tile : Tile :=
  { tile_x := 5, tile_y := 0, zoom := 0, state := "loading",
    source := none }

def c10State : MapViewState :=
  { map_source := MapSource.osmDefault, zoom := 0, viewport_x := 0,
    viewport_y := 0, width := 0, height := 0, tiles := [c10Tile],
    tilemap := [5], cache := ["cache/osm_0_5_0.png"] }

/-- A concrete example state at zoom 5 with offset `(100, 200)`, used to
instantiate the zoom-anchor theorem. -/
def c5State : MapViewState :=
  { map_source := MapSource.osmDefault, zoom := 5, viewport_x := 100,
    viewport_y := 200, width := 800, height := 600, tiles := [],
    tilemap := [], cache := [] }

/-! ## Basic lemmas -/

theorem clamp_eq_self {α : Type} [LinearOrder α] {x mn mx : α}
    (h1 : mn ≤ x) (h2 : x ≤ mx) : clamp x mn mx = x := by
  simp [clamp, min_eq_left h2, max_eq_right h1]

@[simp] theorem load_visible_tiles_zoom (st : MapViewState) :
    st.load_visible_tiles.zoom = st.zoom := rfl

@[simp] theorem load_visible_tiles_viewport_x (st : MapViewState) :
    st.load_visible_tiles.viewport_x = st.viewport_x := rfl

@[simp] theorem load_visible_tiles_viewport_y (st : MapViewState) :
    st.load_visible_tiles.viewport_y = st.viewport_y := rfl

@[simp] theorem load_visible_tiles_map_source (st : MapViewState) :
    st.load_visible_tiles.map_source = st.map_source := rfl

@[simp] theorem load_visible_tiles_cache (st : MapViewState) :
    st.load_visible_tiles.cache = st.cache := rfl

@[simp] theorem remove_all_tiles_zoom (st : MapViewState) :
    st.remove_all_tiles.zoom = st.zoom := rfl

@[simp] theorem remove_all_tiles_viewport_x (st : MapViewState) :
    st.remove_all_tiles.viewport_x = st.viewport_x := rfl

@[simp] theorem remove_all_tiles_viewport_y (st : MapViewState) :
    st.remove_all_tiles.viewport_y = st.viewport_y := rfl

@[simp] theorem remove_all_tiles_cache (st : MapViewState) :
    st.remove_all_tiles.cache = st.cache := rfl

/-! ## C9: the zoom bounds are hardcoded -/

/-- C9: for every `MapSource`, whatever `min_zoom` / `max_zoom` it was
constructed with, `get_min_zoom()` returns `0` and `get_max_zoom()` returns
`19`; consequently `set_zoom_at` clamps the requested zoom into the fixed
range `[0, 19]` (the resulting zoom is `clamp z 0 19` for every requested
`z`, regardless of the source's configured bounds). -/
theorem mapsource_zoom_bounds_fixed :
    ∀ (s : MapSource) (st : MapViewState) (z : ℤ) (x y : ℚ),
      s.get_min_zoom = 0 ∧ s.get_max_zoom = 19 ∧
      ((st.set_zoom_at z x y).zoom : ℤ) = clamp z 0 19 := by
  intro s st z x y
  refine ⟨rfl, rfl, ?_⟩
  unfold MapViewState.set_zoom_at
  simp only [MapSource.get_min_zoom, MapSource.get_max_zoom]
  split
  · next h => omega
  · simp only [load_visible_tiles_zoom, remove_all_tiles_zoom, clamp]
    omega

/-! ## C2: what the drain step does to a completed result -/

/-- C2 as stated is false: the drain loop records the path but performs no
state transition.  At a concrete tile in state `"loading"` whose job
completed, the drained tile's state is still `"loading"`, not `"done"`. -/
theorem drain_keeps_loading_counterexample :
    (Downloader.check_executor_result
        (some ({ tile_x := 0, tile_y := 0, zoom := 1, state := "loading",
                 source := none }, "cache/osm_1_0_0.png"))).map Tile.state
      = some "loading" ∧ ("loading" : String) ≠ "done" :=
  ⟨rfl, by decide⟩

/-- C2 amended: when a completed fetch job is drained, the drain step
records the resolved cache path in the tile's `source` field, but does not
modify the tile's `state` (no transition to `"done"` happens there; only
eviction and `remove_all_tiles` set `"done"`). `None` results (errors or
stale-skipped jobs) are discarded without touching any tile. -/
theorem drain_records_source_keeps_state :
    ∀ (t : Tile) (fn : String),
      Downloader.check_executor_result (some (t, fn))
          = some { t with source := some fn } ∧
      (Downloader.check_executor_result (some (t, fn))).map Tile.state
          = some t.state ∧
      Downloader.check_executor_result none = none := by
  intro t fn
  exact ⟨rfl, rfl, rfl⟩

/-! ## C7: where the stale-result guard lives -/

/-- C7 as stated is false: the drain step does not check the tile's state.
For a concrete tile already marked `"done"` whose job nevertheless produced
a result (the tile was marked `"done"` after the worker ran), the drain
step does modify the tile's `source` field. -/
theorem drain_overwrites_done_tile_counterexample :
    (Downloader.check_executor_result
        (some ({ tile_x := 2, tile_y := 3, zoom := 4, state := "done",
                 source := none }, "cache/osm_4_2_3.png"))).map Tile.source
      = some (some "cache/osm_4_2_3.png") ∧
    some (some "cache/osm_4_2_3.png") ≠ some (none : Option String) :=
  ⟨rfl, by decide⟩

/-- C7 amended: the stale-result guard lives in the worker, not the drain
step: a job whose tile is already `"done"` when the worker runs returns no
result, and the drain step discards `None` results, leaving every tile
untouched.  (A result produced before the tile was marked `"done"` is
still applied by the drain step, per the counterexample.) -/
theorem stale_guard_in_worker (s : MapSource) (t : Tile)
    (h : t.state = "done") :
    Downloader.load_tile s t = none ∧
    Downloader.check_executor_result (Downloader.load_tile s t) = none := by
  simp [Downloader.load_tile, h, Downloader.check_executor_result]

theorem stale_guard_in_worker_witness :
    ({ tile_x := 0, tile_y := 0, zoom := 0, state := "done",
       source := none } : Tile).state = "done" ∧
    (Downloader.load_tile MapSource.osmDefault
        { tile_x := 0, tile_y := 0, zoom := 0, state := "done",
          source := none } = none ∧
      Downloader.check_executor_result
        (Downloader.load_tile MapSource.osmDefault
          { tile_x := 0, tile_y := 0, zoom := 0, state := "done",
            source := none }) = none) :=
  ⟨rfl, stale_guard_in_worker MapSource.osmDefault _ rfl⟩

/-! ## C8: the cache filename is injective in `(cache_key, zoom, x, y)` -/

theorem str_eq_of_data {s t : String} (h : s.data = t.data) : s = t := by
  cases s; cases t; exact congrArg String.mk h

theorem digitChar_isDigit {d : ℕ} (h : d < 10) : (digitChar d).isDigit := by
  unfold digitChar
  interval_cases d <;> decide

theorem digitChar_inj {a b : ℕ} (ha : a < 10) (hb : b < 10)
    (h : digitChar a = digitChar b) : a = b := by
  unfold digitChar at h
  interval_cases a <;> interval_cases b <;> first | rfl | (revert h; decide)

theorem natRepr_digits : ∀ n : ℕ, ∀ c ∈ natRepr n, c.isDigit := by
  intro n
  induction n using Nat.strong_induction_on with
  | _ n ih =>
    intro c hc
    rw [natRepr] at hc
    split at hc
    · next h =>
      rw [List.mem_singleton] at hc
      exact hc ▸ digitChar_isDigit h
    · next h =>
      rw [List.mem_append, List.mem_singleton] at hc
      rcases hc with hc | hc
      · exact ih (n / 10) (Nat.div_lt_self (by omega) (by omega)) c hc
      · exact hc ▸ digitChar_isDigit (Nat.mod_lt _ (by omega))

theorem natRepr_ne_nil (n : ℕ) : natRepr n ≠ [] := by
  rw [natRepr]; split <;> simp

theorem natRepr_eq (n : ℕ) :
    natRepr n = if n < 10 then [digitChar n]
      else natRepr (n / 10) ++ [digitChar (n % 10)] := by
  rw [natRepr]
  exact dite_eq_ite ..

theorem natRepr_inj : ∀ m n : ℕ, natRepr m = natRepr n → m = n := by
  intro m
  induction m using Nat.strong_induction_on with
  | _ m ih =>
    intro n h
    by_cases hm : m < 10 <;> by_cases hn : n < 10
    · rw [natRepr_eq m, natRepr_eq n, if_pos hm, if_pos hn,
        List.cons_eq_cons] at h
      exact digitChar_inj hm hn h.1
    · exfalso
      rw [natRepr_eq m, natRepr_eq n, if_pos hm, if_neg hn] at h
      have hlen := congrArg List.length h
      have hpos : (natRepr (n / 10)).length ≠ 0 :=
        fun h0 => natRepr_ne_nil (n / 10) (List.length_eq_zero.mp h0)
      rw [List.length_singleton, List.length_append,
        List.length_singleton] at hlen
      omega
    · exfalso
      rw [natRepr_eq m, natRepr_eq n, if_neg hm, if_pos hn] at h
      have hlen := congrArg List.length h
      have hpos : (natRepr (m / 10)).length ≠ 0 :=
        fun h0 => natRepr_ne_nil (m / 10) (List.length_eq_zero.mp h0)
      rw [List.length_singleton, List.length_append,
        List.length_singleton] at hlen
      omega
    · rw [natRepr_eq m, natRepr_eq n, if_neg hm, if_neg hn] at h
      have h2 := List.reverse_inj.mpr h
      rw [List.reverse_append, List.reverse_append] at h2
      simp only [List.reverse_singleton, List.singleton_append,
        List.cons_eq_cons] at h2
      have hdiv : m / 10 = n / 10 :=
        ih (m / 10) (Nat.div_lt_self (by omega) (by omega)) (n / 10)
          (List.reverse_inj.mp h2.2)
      have hmod : m % 10 = n % 10 :=
        digitChar_inj (Nat.mod_lt _ (by omega)) (Nat.mod_lt _ (by omega)) h2.1
      omega

theorem isDigit_ne_of_not {c sep : Char} (hc : c.isDigit)
    (hsep : ¬ sep.isDigit) : sep ≠ c :=
  fun h => hsep (h ▸ hc)

theorem count_natRepr_eq_zero {sep : Char} (hsep : ¬ sep.isDigit) (n : ℕ) :
    (natRepr n).count sep = 0 := by
  rw [List.count_eq_zero]
  exact fun hmem => hsep (natRepr_digits n sep hmem)

/-- Splitting an append at a separator: when the separator occurs equally
often in the two prefixes, the two decompositions agree. -/
theorem append_sep_inj {sep : Char} :
    ∀ (a₁ : List Char) {a₂ b₁ b₂ : List Char},
      a₁ ++ sep :: b₁ = a₂ ++ sep :: b₂ →
      a₁.count sep = a₂.count sep → a₁ = a₂ ∧ b₁ = b₂ := by
  intro a₁
  induction a₁ with
  | nil =>
    intro a₂ b₁ b₂ h hc
    cases a₂ with
    | nil => simpa using h
    | cons c a₂ =>
      exfalso
      rw [List.nil_append, List.cons_append, List.cons_eq_cons] at h
      rw [List.count_nil, ← h.1, List.count_cons_self] at hc
      omega
  | cons c a₁ ih =>
    intro a₂ b₁ b₂ h hc
    cases a₂ with
    | nil =>
      exfalso
      rw [List.nil_append, List.cons_append, List.cons_eq_cons] at h
      rw [List.count_nil, h.1, List.count_cons_self] at hc
      omega
    | cons d a₂ =>
      rw [List.cons_append, List.cons_append, List.cons_eq_cons] at h
      obtain ⟨rfl, h2⟩ := h
      have hc' : a₁.count sep = a₂.count sep := by
        rcases eq_or_ne sep c with rfl | hne
        · rw [List.count_cons_self, List.count_cons_self] at hc; omega
        · rwa [List.count_cons_of_ne hne, List.count_cons_of_ne hne] at hc
      obtain ⟨rfl, rfl⟩ := ih h2 hc'
      exact ⟨rfl, rfl⟩

theorem intRepr_natCast (n : ℕ) : intRepr (n : ℤ) = natRepr n := by
  rw [intRepr, if_neg (by omega)]
  simp

theorem cacheFileName_data (k : String) (z : ℕ) (x y : ℤ) (ext : String) :
    (cacheFileName k z x y ext).data
      = k.data ++ '_' :: (natRepr z ++ '_' :: (intRepr x ++ '_' ::
          (intRepr y ++ '.' :: ext.data))) := by
  show k.data ++ "_".data ++ natRepr z ++ "_".data ++ intRepr x ++ "_".data
      ++ intRepr y ++ ".".data ++ ext.data = _
  simp [List.append_assoc]

/-- C8: the produced cache filename
`"{cache_key}_{zoom}_{tile_x}_{tile_y}.{image_ext}"` is injective in the
tuple `(cache_key, zoom, tile_x, tile_y)` for a fixed image extension:
distinct tuples produce distinct filenames, and (being a pure function of
the tuple) two fetches for the same tuple always target the same file. -/
theorem cacheFileName_injective (k₁ k₂ : String) (z₁ z₂ x₁ y₁ x₂ y₂ : ℕ)
    (ext : String)
    (h : cacheFileName k₁ z₁ (x₁ : ℤ) (y₁ : ℤ) ext
        = cacheFileName k₂ z₂ (x₂ : ℤ) (y₂ : ℤ) ext) :
    k₁ = k₂ ∧ z₁ = z₂ ∧ x₁ = x₂ ∧ y₁ = y₂ := by
  have hd := congrArg String.data h
  rw [cacheFileName_data, cacheFileName_data, intRepr_natCast,
    intRepr_natCast, intRepr_natCast, intRepr_natCast] at hd
  have hu : ¬ ('_' : Char).isDigit := by decide
  have hdot : ¬ ('.' : Char).isDigit := by decide
  have hcount := congrArg (List.count '_') hd
  simp only [List.count_append, List.count_cons_self,
    count_natRepr_eq_zero hu,
    List.count_cons_of_ne (show ('_' : Char) ≠ '.' by decide)] at hcount
  obtain ⟨hk, h1⟩ := append_sep_inj k₁.data hd (by omega)
  obtain ⟨hz, h2⟩ := append_sep_inj (natRepr z₁) h1
    (by rw [count_natRepr_eq_zero hu, count_natRepr_eq_zero hu])
  obtain ⟨hx, h3⟩ := append_sep_inj (natRepr x₁) h2
    (by rw [count_natRepr_eq_zero hu, count_natRepr_eq_zero hu])
  have h3' : natRepr y₁ ++ '.' :: ext.data = natRepr y₂ ++ '.' :: ext.data :=
    h3
  obtain ⟨hy, _⟩ := append_sep_inj (natRepr y₁) h3'
    (by rw [count_natRepr_eq_zero hdot, count_natRepr_eq_zero hdot])
  exact ⟨str_eq_of_data hk, natRepr_inj _ _ hz, natRepr_inj _ _ hx,
    natRepr_inj _ _ hy⟩

theorem cacheFileName_injective_witness :
    (cacheFileName "osm" 3 (7 : ℤ) (5 : ℤ) "png"
        = cacheFileName "osm" 3 (7 : ℤ) (5 : ℤ) "png") ∧
    (("osm" : String) = "osm" ∧ (3 : ℕ) = 3 ∧ (7 : ℕ) = 7 ∧ (5 : ℕ) = 5) :=
  ⟨rfl, cacheFileName_injective "osm" "osm" 3 3 7 5 7 5 "png" rfl⟩

/-! ## Arm-level lemmas for the spiral load -/

theorem armVisit_mem (dx dy : ℤ) :
    ∀ (n : ℕ) (x y a b : ℤ),
      (a, b) ∈ armVisit x y dx dy n
        ↔ ∃ j : ℕ, j < n ∧ a = x + j * dx ∧ b = y + j * dy := by
  intro n
  induction n with
  | zero => intro x y a b; simp [armVisit]
  | succ n ih =>
    intro x y a b
    rw [armVisit, List.mem_cons, ih]
    constructor
    · rintro (h | ⟨j, hj, h1, h2⟩)
      · rw [Prod.mk.injEq] at h
        exact ⟨0, by omega, by rw [h.1]; push_cast; ring,
          by rw [h.2]; push_cast; ring⟩
      · exact ⟨j + 1, by omega, by rw [h1]; push_cast; ring,
          by rw [h2]; push_cast; ring⟩
    · rintro ⟨j, hj, h1, h2⟩
      cases j with
      | zero =>
        left
        rw [Prod.mk.injEq]
        constructor <;> [rw [h1]; rw [h2]] <;> push_cast <;> ring
      | succ j =>
        right
        exact ⟨j, by omega, by rw [h1]; push_cast; ring,
          by rw [h2]; push_cast; ring⟩

theorem armLoad_acc_mono (xf xl yf yl cols : ℤ) :
    ∀ (i : ℕ) (x y dx dy : ℤ) (tmap : List ℤ) (acc : List (ℤ × ℤ))
      (q : ℤ × ℤ), q ∈ acc →
      q ∈ (armLoad xf xl yf yl cols x y dx dy i tmap acc).2 := by
  intro i
  induction i with
  | zero => intro x y dx dy tmap acc q hq; exact hq
  | succ i ih =>
    intro x y dx dy tmap acc q hq
    rw [armLoad]
    split
    · exact ih _ _ _ _ _ _ q (List.mem_append_left _ hq)
    · exact ih _ _ _ _ _ _ q hq

theorem armLoad_sound (xf xl yf yl cols : ℤ) :
    ∀ (i : ℕ) (x y dx dy : ℤ) (tmap : List ℤ) (acc : List (ℤ × ℤ))
      (q : ℤ × ℤ), q ∈ (armLoad xf xl yf yl cols x y dx dy i tmap acc).2 →
      q ∈ acc ∨ inRect xf xl yf yl q := by
  intro i
  induction i with
  | zero => intro x y dx dy tmap acc q hq; exact Or.inl hq
  | succ i ih =>
    intro x y dx dy tmap acc q hq
    rw [armLoad] at hq
    split at hq
    · next hguard =>
      rcases ih _ _ _ _ _ _ q hq with hmem | hin
      · rcases List.mem_append.mp hmem with hmem | hmem
        · exact Or.inl hmem
        · rw [List.mem_singleton] at hmem
          subst hmem
          exact Or.inr ⟨hguard.2.2.2.1, hguard.2.2.2.2, hguard.2.1,
            hguard.2.2.1⟩
      · exact Or.inr hin
    · exact ih _ _ _ _ _ _ q hq

theorem spiralInv_insert {xf xl yf yl cols : ℤ} {tmap : List ℤ}
    {acc : List (ℤ × ℤ)} {q : ℤ × ℤ}
    (h : SpiralInv xf xl yf yl cols tmap acc)
    (hq : inRect xf xl yf yl q)
    (hk : tileKey cols q.1 q.2 ∉ tmap) :
    SpiralInv xf xl yf yl cols (tileKey cols q.1 q.2 :: tmap)
      (acc ++ [q]) := by
  obtain ⟨hnd, hrect, hkeys, hmem⟩ := h
  have hnew : q ∉ acc := fun hqa => hk (hmem q hqa)
  refine ⟨?_, ?_, ?_, ?_⟩
  · rw [List.nodup_append]
    exact ⟨hnd, List.nodup_singleton q,
      fun a ha hb => hnew ((List.mem_singleton.mp hb) ▸ ha)⟩
  · intro r hr
    rcases List.mem_append.mp hr with hr | hr
    · exact hrect r hr
    · exact (List.mem_singleton.mp hr) ▸ hq
  · intro k hkmem
    rcases List.mem_cons.mp hkmem with rfl | hkmem
    · exact ⟨q, List.mem_append_right _ (List.mem_singleton.mpr rfl), rfl⟩
    · obtain ⟨r, hr, hrk⟩ := hkeys k hkmem
      exact ⟨r, List.mem_append_left _ hr, hrk⟩
  · intro r hr
    rcases List.mem_append.mp hr with hr | hr
    · exact List.mem_cons_of_mem _ (hmem r hr)
    · exact (List.mem_singleton.mp hr) ▸ List.mem_cons_self _ _

theorem armLoad_inv (xf xl yf yl cols : ℤ) :
    ∀ (i : ℕ) (x y dx dy : ℤ) (tmap : List ℤ) (acc : List (ℤ × ℤ)),
      SpiralInv xf xl yf yl cols tmap acc →
      SpiralInv xf xl yf yl cols
        (armLoad xf xl yf yl cols x y dx dy i tmap acc).1
        (armLoad xf xl yf yl cols x y dx dy i tmap acc).2 := by
  intro i
  induction i with
  | zero => intro x y dx dy tmap acc h; exact h
  | succ i ih =>
    intro x y dx dy tmap acc h
    rw [armLoad]
    split
    · next hguard =>
      exact ih _ _ _ _ _ _ (spiralInv_insert h
        ⟨hguard.2.2.2.1, hguard.2.2.2.2, hguard.2.1, hguard.2.2.1⟩ hguard.1)
    · exact ih _ _ _ _ _ _ h

theorem armLoad_complete (xf xl yf yl cols : ℤ)
    (hinj : ∀ q₁ q₂ : ℤ × ℤ, inRect xf xl yf yl q₁ → inRect xf xl yf yl q₂ →
      tileKey cols q₁.1 q₁.2 = tileKey cols q₂.1 q₂.2 → q₁ = q₂) :
    ∀ (i : ℕ) (x y dx dy : ℤ) (tmap : List ℤ) (acc : List (ℤ × ℤ))
      (q : ℤ × ℤ), SpiralInv xf xl yf yl cols tmap acc →
      q ∈ armVisit x y dx dy i → inRect xf xl yf yl q →
      q ∈ (armLoad xf xl yf yl cols x y dx dy i tmap acc).2 := by
  intro i
  induction i with
  | zero => intro x y dx dy tmap acc q _ hv _; simp [armVisit] at hv
  | succ i ih =>
    intro x y dx dy tmap acc q hInv hv hq
    rw [armVisit] at hv
    rw [armLoad]
    rcases List.mem_cons.mp hv with rfl | hv
    · split
      · exact armLoad_acc_mono xf xl yf yl cols _ _ _ _ _ _ _ _
          (List.mem_append_right _ (List.mem_singleton.mpr rfl))
      · next hguard =>
        have hkey : tileKey cols x y ∈ tmap := by
          by_contra hk
          exact hguard ⟨hk, hq.2.2.1, hq.2.2.2, hq.1, hq.2.1⟩
        obtain ⟨r, hr, hrk⟩ := hInv.2.2.1 _ hkey
        have : r = (x, y) := hinj r (x, y) (hInv.2.1 r hr) hq hrk
        exact armLoad_acc_mono xf xl yf yl cols _ _ _ _ _ _ _ _ (this ▸ hr)
    · split
      · next hguard =>
        exact ih _ _ _ _ _ _ q (spiralInv_insert hInv
          ⟨hguard.2.2.2.1, hguard.2.2.2.2, hguard.2.1, hguard.2.2.1⟩
          hguard.1) hv hq
      · exact ih _ _ _ _ _ _ q hInv hv hq

/-! ## Spiral-level lemmas -/

theorem spiralLoad_acc_mono (armMax : ℕ) (xf xl yf yl cols : ℤ) :
    ∀ (x y : ℤ) (armSize turn : ℕ) (tmap : List ℤ) (acc : List (ℤ × ℤ)),
      ∀ q ∈ acc,
        q ∈ (spiralLoad armMax xf xl yf yl cols x y armSize turn
          tmap acc).2 := by
  intro x y armSize turn tmap acc
  induction x, y, armSize, turn, tmap, acc using spiralLoad.induct armMax
    xf xl yf yl cols with
  | case1 x y armSize turn tmap acc hlt p ih =>
    intro q hq
    rw [spiralLoad, if_pos hlt]
    exact ih q (armLoad_acc_mono xf xl yf yl cols _ _ _ _ _ _ _ q hq)
  | case2 x y armSize turn tmap acc hlt =>
    intro q hq
    rw [spiralLoad, if_neg hlt]
    exact hq

theorem spiralLoad_sound (armMax : ℕ) (xf xl yf yl cols : ℤ) :
    ∀ (x y : ℤ) (armSize turn : ℕ) (tmap : List ℤ) (acc : List (ℤ × ℤ)),
      ∀ q ∈ (spiralLoad armMax xf xl yf yl cols x y armSize turn
          tmap acc).2, q ∈ acc ∨ inRect xf xl yf yl q := by
  intro x y armSize turn tmap acc
  induction x, y, armSize, turn, tmap, acc using spiralLoad.induct armMax
    xf xl yf yl cols with
  | case1 x y armSize turn tmap acc hlt p ih =>
    intro q hq
    rw [spiralLoad, if_pos hlt] at hq
    rcases ih q hq with hmem | hin
    · exact armLoad_sound xf xl yf yl cols _ _ _ _ _ _ _ q hmem
    · exact Or.inr hin
  | case2 x y armSize turn tmap acc hlt =>
    intro q hq
    rw [spiralLoad, if_neg hlt] at hq
    exact Or.inl hq

theorem spiralLoad_inv (armMax : ℕ) (xf xl yf yl cols : ℤ) :
    ∀ (x y : ℤ) (armSize turn : ℕ) (tmap : List ℤ) (acc : List (ℤ × ℤ)),
      SpiralInv xf xl yf yl cols tmap acc →
      SpiralInv xf xl yf yl cols
        (spiralLoad armMax xf xl yf yl cols x y armSize turn tmap acc).1
        (spiralLoad armMax xf xl yf yl cols x y armSize turn tmap acc).2 := by
  intro x y armSize turn tmap acc
  induction x, y, armSize, turn, tmap, acc using spiralLoad.induct armMax
    xf xl yf yl cols with
  | case1 x y armSize turn tmap acc hlt p ih =>
    intro h
    rw [spiralLoad, if_pos hlt]
    exact ih (armLoad_inv xf xl yf yl cols _ _ _ _ _ _ _ h)
  | case2 x y armSize turn tmap acc hlt =>
    intro h
    rw [spiralLoad, if_neg hlt]
    exact h

theorem spiralLoad_complete (armMax : ℕ) (xf xl yf yl cols : ℤ)
    (hinj : ∀ q₁ q₂ : ℤ × ℤ, inRect xf xl yf yl q₁ → inRect xf xl yf yl q₂ →
      tileKey cols q₁.1 q₁.2 = tileKey cols q₂.1 q₂.2 → q₁ = q₂) :
    ∀ (x y : ℤ) (armSize turn : ℕ) (tmap : List ℤ) (acc : List (ℤ × ℤ)),
      SpiralInv xf xl yf yl cols tmap acc →
      ∀ q, q ∈ spiralVisits armMax x y armSize turn → inRect xf xl yf yl q →
        q ∈ (spiralLoad armMax xf xl yf yl cols x y armSize turn
          tmap acc).2 := by
  intro x y armSize turn tmap acc
  induction x, y, armSize, turn, tmap, acc using spiralLoad.induct armMax
    xf xl yf yl cols with
  | case1 x y armSize turn tmap acc hlt p ih =>
    intro h q hv hq
    rw [spiralVisits, if_pos hlt] at hv
    rw [spiralLoad, if_pos hlt]
    rcases List.mem_append.mp hv with hv | hv
    · exact spiralLoad_acc_mono armMax xf xl yf yl cols _ _ _ _ _ _ q
        (armLoad_complete xf xl yf yl cols hinj _ _ _ _ _ _ _ q h hv hq)
    · exact ih (armLoad_inv xf xl yf yl cols _ _ _ _ _ _ _ h) q hv hq
  | case2 x y armSize turn tmap acc hlt =>
    intro _ q hv _
    rw [spiralVisits, if_neg hlt] at hv
    simp at hv

/-! ## Geometry of the spiral: the visited set covers a growing rectangle -/

theorem spiralDir_even (k : ℕ) (h : k % 2 = 0) :
    spiralDx (2 * k) = 1 ∧ spiralDy (2 * k) = 0 ∧
    spiralDx (2 * k + 1) = 0 ∧ spiralDy (2 * k + 1) = 1 := by
  have h4 : (2 * k) % 4 = 0 := by omega
  have h4' : (2 * k + 1) % 4 = 1 := by omega
  refine ⟨?_, ?_, ?_, ?_⟩ <;>
    simp [spiralDx, spiralDy, dirList, h4, h4']

theorem spiralDir_odd (k : ℕ) (h : k % 2 = 1) :
    spiralDx (2 * k) = -1 ∧ spiralDy (2 * k) = 0 ∧
    spiralDx (2 * k + 1) = 0 ∧ spiralDy (2 * k + 1) = -1 := by
  have h4 : (2 * k) % 4 = 2 := by omega
  have h4' : (2 * k + 1) % 4 = 3 := by omega
  refine ⟨?_, ?_, ?_, ?_⟩ <;>
    simp [spiralDx, spiralDy, dirList, h4, h4']

theorem spiralVisits_pair (armMax : ℕ) (x y : ℤ) (k : ℕ)
    (h1 : k + 1 < armMax) :
    spiralVisits armMax x y (k + 1) (2 * k)
      = armVisit x y (spiralDx (2 * k)) (spiralDy (2 * k)) (k + 1) ++
        (armVisit (x + ((k : ℤ) + 1) * spiralDx (2 * k))
            (y + ((k : ℤ) + 1) * spiralDy (2 * k))
            (spiralDx (2 * k + 1)) (spiralDy (2 * k + 1)) (k + 1) ++
          spiralVisits armMax
            (x + ((k : ℤ) + 1) * spiralDx (2 * k)
              + ((k : ℤ) + 1) * spiralDx (2 * k + 1))
            (y + ((k : ℤ) + 1) * spiralDy (2 * k)
              + ((k : ℤ) + 1) * spiralDy (2 * k + 1))
            (k + 2) (2 * k + 2)) := by
  rw [spiralVisits, if_pos h1, if_neg (by omega : ¬ (2 * k) % 2 = 1)]
  congr 1
  rw [spiralVisits, if_pos h1, if_pos (by omega : (2 * k + 1) % 2 = 1)]
  push_cast
  ring_nf

theorem sigmaPos_step (c : ℤ × ℤ) (k : ℕ) :
    (sigmaPos c k).1 + ((k : ℤ) + 1) * spiralDx (2 * k)
        + ((k : ℤ) + 1) * spiralDx (2 * k + 1) = (sigmaPos c (k + 1)).1 ∧
    (sigmaPos c k).2 + ((k : ℤ) + 1) * spiralDy (2 * k)
        + ((k : ℤ) + 1) * spiralDy (2 * k + 1) = (sigmaPos c (k + 1)).2 := by
  rcases Nat.mod_two_eq_zero_or_one k with hk | hk
  · obtain ⟨d1, d2, d3, d4⟩ := spiralDir_even k hk
    rw [d1, d2, d3, d4]
    rw [sigmaPos, sigmaPos, if_neg (by omega : ¬ k % 2 = 1),
      if_pos (by omega : (k + 1) % 2 = 1)]
    constructor <;> simp <;> omega
  · obtain ⟨d1, d2, d3, d4⟩ := spiralDir_odd k hk
    rw [d1, d2, d3, d4]
    rw [sigmaPos, sigmaPos, if_pos hk,
      if_neg (by omega : ¬ (k + 1) % 2 = 1)]
    constructor <;> simp <;> omega

theorem region_diff_arms (c : ℤ × ℤ) (k : ℕ) (a b : ℤ)
    (h1 : region c (k + 1) (a, b)) (h2 : ¬ region c k (a, b)) :
    (a, b) ∈ armVisit (sigmaPos c k).1 (sigmaPos c k).2
        (spiralDx (2 * k)) (spiralDy (2 * k)) (k + 1) ∨
    (a, b) ∈ armVisit ((sigmaPos c k).1 + ((k : ℤ) + 1) * spiralDx (2 * k))
        ((sigmaPos c k).2 + ((k : ℤ) + 1) * spiralDy (2 * k))
        (spiralDx (2 * k + 1)) (spiralDy (2 * k + 1)) (k + 1) := by
  unfold region at h1 h2
  rcases Nat.mod_two_eq_zero_or_one k with hk | hk
  · obtain ⟨d1, d2, d3, d4⟩ := spiralDir_even k hk
    rw [d1, d2, d3, d4]
    rw [sigmaPos, if_neg (by omega : ¬ k % 2 = 1)]
    have hK : 2 * (k / 2) = k := by omega
    by_cases hcol : a = c.1 - ((k / 2 : ℕ) : ℤ) + ((k : ℤ) + 1)
    · refine Or.inr ((armVisit_mem _ _ _ _ _ _ _).mpr
        ⟨(b - (c.2 - ((k / 2 : ℕ) : ℤ))).toNat, by omega, by omega, by omega⟩)
    · refine Or.inl ((armVisit_mem _ _ _ _ _ _ _).mpr
        ⟨(a - (c.1 - ((k / 2 : ℕ) : ℤ))).toNat, by omega, by omega, by omega⟩)
  · obtain ⟨d1, d2, d3, d4⟩ := spiralDir_odd k hk
    rw [d1, d2, d3, d4]
    rw [sigmaPos, if_pos hk]
    have hK : 2 * ((k + 1) / 2) = k + 1 := by omega
    by_cases hcol : a = c.1 + (((k + 1) / 2 : ℕ) : ℤ) - ((k : ℤ) + 1)
    · refine Or.inr ((armVisit_mem _ _ _ _ _ _ _).mpr
        ⟨((c.2 + (((k + 1) / 2 : ℕ) : ℤ)) - b).toNat, by omega, by omega,
          by omega⟩)
    · refine Or.inl ((armVisit_mem _ _ _ _ _ _ _).mpr
        ⟨((c.1 + (((k + 1) / 2 : ℕ) : ℤ)) - a).toNat, by omega, by omega,
          by omega⟩)

theorem region_covered (A : ℕ) (c : ℤ × ℤ) :
    ∀ (n k : ℕ), A - k = n → k ≤ A → ∀ a b : ℤ, region c A (a, b) →
      ¬ region c k (a, b) →
      (a, b) ∈ spiralVisits (A + 1) (sigmaPos c k).1 (sigmaPos c k).2
        (k + 1) (2 * k) := by
  intro n
  induction n with
  | zero =>
    intro k hn hk a b hA hknot
    have hkA : k = A := by omega
    exact absurd (hkA ▸ hA) hknot
  | succ n ih =>
    intro k hn hk a b hA hknot
    rw [spiralVisits_pair (A + 1) _ _ k (by omega)]
    by_cases hk1 : region c (k + 1) (a, b)
    · rcases region_diff_arms c k a b hk1 hknot with h | h
      · exact List.mem_append_left _ h
      · exact List.mem_append_right _ (List.mem_append_left _ h)
    · refine List.mem_append_right _ (List.mem_append_right _ ?_)
      have hstep := ih (k + 1) (by omega) (by omega) a b hA hk1
      obtain ⟨e1, e2⟩ := sigmaPos_step c k
      rw [e1, e2, show 2 * k + 2 = 2 * (k + 1) by ring]
      exact hstep

theorem spiralVisits_covers (A : ℕ) (hA : 1 ≤ A) (c : ℤ × ℤ) (a b : ℤ)
    (h : region c A (a, b)) :
    (a, b) ∈ spiralVisits (A + 1) c.1 c.2 1 0 := by
  by_cases h0 : region c 0 (a, b)
  · have hac : a = c.1 ∧ b = c.2 := by
      unfold region at h0
      constructor <;> omega
    rw [spiralVisits, if_pos (by omega : 1 < A + 1)]
    refine List.mem_append_left _ ?_
    rw [armVisit]
    rw [hac.1, hac.2]
    exact List.mem_cons_self _ _
  · have hcov := region_covered A c A 0 (by omega) (by omega) a b h h0
    have hs : sigmaPos c 0 = c := by
      rw [sigmaPos, if_neg (by omega : ¬ 0 % 2 = 1)]
      simp
    rw [hs] at hcov
    simpa using hcov

/-! ## C3: the spiral loads the visible rectangle exactly once -/

theorem tileKey_inj_aux (cols x1 y1 x2 y2 : ℤ) (hx1 : 0 ≤ x1)
    (hx1' : x1 < cols) (hx2 : 0 ≤ x2) (hx2' : x2 < cols)
    (h : tileKey cols x1 y1 = tileKey cols x2 y2) : x1 = x2 ∧ y1 = y2 := by
  unfold tileKey at h
  have hc : 0 < cols := by omega
  have hy : y1 = y2 := by
    rcases lt_trichotomy y1 y2 with hlt | heq | hgt
    · exfalso
      have h1 : (1 : ℤ) * cols ≤ (y2 - y1) * cols :=
        mul_le_mul_of_nonneg_right (by omega) (le_of_lt hc)
      nlinarith
    · exact heq
    · exfalso
      have h1 : (1 : ℤ) * cols ≤ (y1 - y2) * cols :=
        mul_le_mul_of_nonneg_right (by omega) (le_of_lt hc)
      nlinarith
  subst hy
  have : x1 = x2 := by linarith
  exact ⟨this, rfl⟩

theorem tileKey_inj_on_rect (xf xl yf yl cols : ℤ) (h0 : 0 ≤ xf)
    (hC : xl ≤ cols) :
    ∀ q₁ q₂ : ℤ × ℤ, inRect xf xl yf yl q₁ → inRect xf xl yf yl q₂ →
      tileKey cols q₁.1 q₁.2 = tileKey cols q₂.1 q₂.2 → q₁ = q₂ := by
  rintro ⟨a1, b1⟩ ⟨a2, b2⟩ hq1 hq2 hk
  obtain ⟨h1, h2, h3, h4⟩ := hq1
  obtain ⟨h5, h6, h7, h8⟩ := hq2
  obtain ⟨hx, hy⟩ := tileKey_inj_aux cols a1 b1 a2 b2 (by omega) (by omega)
    (by omega) (by omega) hk
  rw [Prod.mk.injEq]
  exact ⟨hx, hy⟩

theorem rect_subset_region (xf xl yf yl : ℤ) (a b : ℤ)
    (h : inRect xf xl yf yl (a, b)) :
    region (xf + (xl - xf) / 2 - 1, yf + (yl - yf) / 2 - 1)
      ((max (xl - xf) (yl - yf)).toNat + 1) (a, b) := by
  unfold inRect at h
  unfold region
  simp only
  omega

theorem spiralInv_nil (xf xl yf yl cols : ℤ) :
    SpiralInv xf xl yf yl cols [] [] := by
  refine ⟨List.nodup_nil, ?_, ?_, ?_⟩ <;> intro q hq <;> simp at hq

/-- C3: for every visible tile rectangle `[xf, xl) × [yf, yl)` (as produced
by `load_visible_tiles`: `0 ≤ xf ≤ xl ≤ cols`), the spiral traversal —
started at `(xf + (xl-xf)/2 - 1, yf + (yl-yf)/2 - 1)` with
`arm_max = max(xl-xf, yl-yf) + 2`, arm size 1, turn 0, empty tile map —
loads each cell of the rectangle exactly once (membership is equivalent to
being in the rectangle, and the load list has no duplicates) and loads no
cell outside the rectangle. -/
theorem spiral_traversal_exact (xf xl yf yl cols : ℤ)
    (_hm : xf ≤ xl) (_hn : yf ≤ yl) (h0 : 0 ≤ xf) (hC : xl ≤ cols) :
    (∀ a b : ℤ,
        (a, b) ∈ (spiralLoad ((max (xl - xf) (yl - yf)).toNat + 2) xf xl
            yf yl cols (xf + (xl - xf) / 2 - 1) (yf + (yl - yf) / 2 - 1)
            1 0 [] []).2
          ↔ inRect xf xl yf yl (a, b)) ∧
    (spiralLoad ((max (xl - xf) (yl - yf)).toNat + 2) xf xl yf yl cols
        (xf + (xl - xf) / 2 - 1) (yf + (yl - yf) / 2 - 1) 1 0 [] []).2.Nodup
    := by
  have hinj := tileKey_inj_on_rect xf xl yf yl cols h0 hC
  have hinv := spiralInv_nil xf xl yf yl cols
  constructor
  · intro a b
    constructor
    · intro hmem
      rcases spiralLoad_sound _ xf xl yf yl cols _ _ _ _ _ _ _ hmem with
        h | h
      · simp at h
      · exact h
    · intro hrect
      have hreg := rect_subset_region xf xl yf yl a b hrect
      have hcov := spiralVisits_covers ((max (xl - xf) (yl - yf)).toNat + 1)
        (by omega) (xf + (xl - xf) / 2 - 1, yf + (yl - yf) / 2 - 1) a b hreg
      exact spiralLoad_complete ((max (xl - xf) (yl - yf)).toNat + 2)
        xf xl yf yl cols hinj _ _ 1 0 [] [] hinv (a, b) hcov hrect
  · exact (spiralLoad_inv ((max (xl - xf) (yl - yf)).toNat + 2)
      xf xl yf yl cols _ _ 1 0 [] [] hinv).1

theorem spiral_traversal_exact_witness :
    ((0 : ℤ) ≤ 3 ∧ (0 : ℤ) ≤ 2 ∧ (0 : ℤ) ≤ 0 ∧ (3 : ℤ) ≤ 4) ∧
    ((∀ a b : ℤ,
        (a, b) ∈ (spiralLoad ((max ((3 : ℤ) - 0) ((2 : ℤ) - 0)).toNat + 2)
            0 3 0 2 4 (0 + ((3 : ℤ) - 0) / 2 - 1) (0 + ((2 : ℤ) - 0) / 2 - 1)
            1 0 [] []).2
          ↔ inRect 0 3 0 2 (a, b)) ∧
      (spiralLoad ((max ((3 : ℤ) - 0) ((2 : ℤ) - 0)).toNat + 2) 0 3 0 2 4
          (0 + ((3 : ℤ) - 0) / 2 - 1) (0 + ((2 : ℤ) - 0) / 2 - 1)
          1 0 [] []).2.Nodup) :=
  ⟨⟨by decide, by decide, by decide, by decide⟩,
    spiral_traversal_exact 0 3 0 2 4 (by decide) (by decide) (by decide)
      (by decide)⟩

/-! ## C4: every requested tile is inside the zoom level's grid -/

theorem get_col_count_pos (s : MapSource) (zoom : ℕ) :
    1 ≤ s.get_col_count zoom := by
  unfold MapSource.get_col_count
  split
  · omega
  · rw [Nat.shiftLeft_eq]
    have h : 0 < 2 * 2 ^ (zoom - 1) := by positivity
    omega

theorem get_row_count_pos (s : MapSource) (zoom : ℕ) :
    1 ≤ s.get_row_count zoom := by
  unfold MapSource.get_row_count
  split
  · omega
  · rw [Nat.shiftLeft_eq]
    have h : 0 < 2 * 2 ^ (zoom - 1) := by positivity
    omega

theorem floor_clamp_bounds (v : ℚ) (M : ℤ) (hM : 0 ≤ M) :
    0 ≤ ⌊clamp v 0 (M : ℚ)⌋ ∧ ⌊clamp v 0 (M : ℚ)⌋ ≤ M := by
  constructor
  · exact Int.le_floor.mpr (by exact_mod_cast le_max_left (0 : ℚ) _)
  · have h : clamp v 0 (M : ℚ) ≤ (M : ℚ) :=
      max_le (by exact_mod_cast hM) (min_le_right _ _)
    calc ⌊clamp v 0 (M : ℚ)⌋ ≤ ⌊(M : ℚ)⌋ := Int.floor_le_floor h
      _ = M := Int.floor_intCast M

theorem visibleParams_bounds (st : MapViewState) :
    0 ≤ st.visibleParams.1 ∧
    st.visibleParams.1 ≤ st.visibleParams.2.1 ∧
    st.visibleParams.2.1 ≤ (st.map_source.get_col_count st.zoom : ℤ) ∧
    0 ≤ st.visibleParams.2.2.1 ∧
    st.visibleParams.2.2.1 ≤ st.visibleParams.2.2.2 ∧
    st.visibleParams.2.2.2 ≤ (st.map_source.get_row_count st.zoom : ℤ) := by
  have hcol : (0 : ℤ) ≤ (st.map_source.get_col_count st.zoom : ℤ) := by
    exact_mod_cast Nat.zero_le _
  have hrow : (0 : ℤ) ≤ (st.map_source.get_row_count st.zoom : ℤ) := by
    exact_mod_cast Nat.zero_le _
  obtain ⟨hx0, hx1⟩ := floor_clamp_bounds
    (st.viewport_x / st.map_source.tile_size)
    (st.map_source.get_col_count st.zoom : ℤ) hcol
  obtain ⟨hy0, hy1⟩ := floor_clamp_bounds
    (st.viewport_y / st.map_source.tile_size)
    (st.map_source.get_row_count st.zoom : ℤ) hrow
  unfold MapViewState.visibleParams
  simp only [clamp] at hx0 hx1 hy0 hy1 ⊢
  refine ⟨hx0, ?_, ?_, hy0, ?_, ?_⟩ <;> omega

/-- C4: for every viewport offset (including negative offsets and offsets
past the map edge), viewport size and zoom, every cell that
`load_visible_tiles` passes to `load_tile` has its column in
`[0, get_col_count(zoom))` and its row in `[0, get_row_count(zoom))`:
no out-of-range tile is ever created or requested. -/
theorem load_visible_tiles_in_range (st : MapViewState)
    (_hs : 0 < st.map_source.tile_size) :
    ∀ q ∈ st.loadVisibleCells,
      0 ≤ q.1 ∧ q.1 < (st.map_source.get_col_count st.zoom : ℤ) ∧
      0 ≤ q.2 ∧ q.2 < (st.map_source.get_row_count st.zoom : ℤ) := by
  intro q hq
  have hb := visibleParams_bounds st
  unfold MapViewState.loadVisibleCells MapViewState.loadVisibleSpiral at hq
  rcases spiralLoad_sound _ _ _ _ _ _ _ _ _ _ _ _ q hq with h | h
  · simp at h
  · obtain ⟨h1, h2, h3, h4⟩ := h
    obtain ⟨b1, b2, b3, b4, b5, b6⟩ := hb
    exact ⟨by omega, by omega, by omega, by omega⟩

theorem load_visible_tiles_in_range_witness :
    (0 : ℚ) < c4State.map_source.tile_size ∧
    (∀ q ∈ c4State.loadVisibleCells,
      0 ≤ q.1 ∧ q.1 < (c4State.map_source.get_col_count c4State.zoom : ℤ) ∧
      0 ≤ q.2 ∧ q.2 < (c4State.map_source.get_row_count c4State.zoom : ℤ)) :=
  ⟨by decide, load_visible_tiles_in_range c4State (by decide)⟩

/-! ## C6: a repeated pass over an unchanged viewport fetches nothing -/

theorem evictMap_id (xf xl yf yl cols : ℤ) :
    ∀ (tiles : List Tile) (tmap : List ℤ),
      (∀ t ∈ tiles, inRect xf xl yf yl (t.tile_x, t.tile_y)) →
      MapViewState.evictMap xf xl yf yl cols tiles tmap = tmap := by
  intro tiles
  induction tiles with
  | nil => intro tmap _; rfl
  | cons t rest ih =>
    intro tmap h
    obtain ⟨h1, h2, h3, h4⟩ := h t (List.mem_cons_self _ _)
    unfold MapViewState.evictMap
    rw [List.foldl_cons, if_neg (by omega)]
    exact ih tmap fun t' ht' => h t' (List.mem_cons_of_mem _ ht')

theorem armLoad_no_load (xf xl yf yl cols : ℤ) (tmap : List ℤ)
    (hcov : ∀ a b : ℤ, inRect xf xl yf yl (a, b) → tileKey cols a b ∈ tmap) :
    ∀ (i : ℕ) (x y dx dy : ℤ) (acc : List (ℤ × ℤ)),
      armLoad xf xl yf yl cols x y dx dy i tmap acc = (tmap, acc) := by
  intro i
  induction i with
  | zero => intro x y dx dy acc; rfl
  | succ i ih =>
    intro x y dx dy acc
    rw [armLoad, if_neg, ih]
    rintro ⟨hk, hy1, hy2, hx1, hx2⟩
    exact hk (hcov x y ⟨hx1, hx2, hy1, hy2⟩)

theorem spiralLoad_no_load (armMax : ℕ) (xf xl yf yl cols : ℤ)
    (tmap : List ℤ)
    (hcov : ∀ a b : ℤ, inRect xf xl yf yl (a, b) →
      tileKey cols a b ∈ tmap) :
    ∀ (fuel : ℕ) (x y : ℤ) (armSize turn : ℕ) (acc : List (ℤ × ℤ)),
      2 * (armMax - armSize) + (turn + 1) % 2 ≤ fuel →
      spiralLoad armMax xf xl yf yl cols x y armSize turn tmap acc
        = (tmap, acc) := by
  intro fuel
  induction fuel with
  | zero =>
    intro x y armSize turn acc hf
    rw [spiralLoad, if_neg (by omega)]
  | succ fuel ih =>
    intro x y armSize turn acc hf
    by_cases hlt : armSize < armMax
    · rw [spiralLoad, if_pos hlt]
      simp only [armLoad_no_load xf xl yf yl cols tmap hcov]
      by_cases ht : turn % 2 = 1
      · rw [if_pos ht]
        exact ih _ _ _ _ _ (by omega)
      · rw [if_neg ht]
        exact ih _ _ _ _ _ (by omega)
    · rw [spiralLoad, if_neg hlt]

/-- C6: if the active tile map already contains the key of every cell of
the visible rectangle and every active tile lies inside the rectangle
(the situation after a completed pass over an unchanged viewport), then a
repeated `load_visible_tiles` pass loads no cell and submits zero fetch
jobs to the `Downloader`; moreover `fill_tile` itself short-circuits
without a fetch for any tile whose state is `"done"` or whose cache file
exists. -/
theorem repeated_pass_no_downloads (st : MapViewState)
    (hcov : ∀ a b : ℤ,
      inRect st.visibleParams.1 st.visibleParams.2.1 st.visibleParams.2.2.1
        st.visibleParams.2.2.2 (a, b) →
      tileKey (st.map_source.get_col_count st.zoom : ℤ) a b ∈ st.tilemap)
    (htiles : ∀ t ∈ st.tiles,
      inRect st.visibleParams.1 st.visibleParams.2.1 st.visibleParams.2.2.1
        st.visibleParams.2.2.2 (t.tile_x, t.tile_y)) :
    st.loadVisibleCells = [] ∧ st.loadVisibleDownloads = [] ∧
    (∀ (s : MapSource) (cache : List String) (t : Tile),
      (t.state = "done" → s.fill_tile cache t = (t, false)) ∧
      (t.cache_fn s ∈ cache → (s.fill_tile cache t).2 = false)) := by
  have hmap := evictMap_id st.visibleParams.1 st.visibleParams.2.1
    st.visibleParams.2.2.1 st.visibleParams.2.2.2
    (st.map_source.get_col_count st.zoom : ℤ) st.tiles st.tilemap htiles
  have hcells : st.loadVisibleCells = [] := by
    unfold MapViewState.loadVisibleCells MapViewState.loadVisibleSpiral
    simp only [hmap]
    rw [spiralLoad_no_load _ _ _ _ _ _ _ hcov
      (2 * ((max (st.visibleParams.2.1 - st.visibleParams.1)
        (st.visibleParams.2.2.2 - st.visibleParams.2.2.1)).toNat + 2) + 1)
      _ _ _ _ _ (by omega)]
  refine ⟨hcells, ?_, ?_⟩
  · unfold MapViewState.loadVisibleDownloads
    rw [hcells]
    rfl
  · intro s cache t
    constructor
    · intro h
      unfold MapSource.fill_tile
      rw [if_pos h]
    · intro h
      by_cases hd : t.state = "done" <;> simp [MapSource.fill_tile, hd, h]

theorem repeated_pass_no_downloads_witness :
    (∀ a b : ℤ,
      inRect c6State.visibleParams.1 c6State.visibleParams.2.1
        c6State.visibleParams.2.2.1 c6State.visibleParams.2.2.2 (a, b) →
      tileKey (c6State.map_source.get_col_count c6State.zoom : ℤ) a b
        ∈ c6State.tilemap) ∧
    (∀ t ∈ c6State.tiles,
      inRect c6State.visibleParams.1 c6State.visibleParams.2.1
        c6State.visibleParams.2.2.1 c6State.visibleParams.2.2.2
        (t.tile_x, t.tile_y)) ∧
    (c6State.loadVisibleCells = [] ∧ c6State.loadVisibleDownloads = [] ∧
      (∀ (s : MapSource) (cache : List String) (t : Tile),
        (t.state = "done" → s.fill_tile cache t = (t, false)) ∧
        (t.cache_fn s ∈ cache → (s.fill_tile cache t).2 = false))) := by
  have hvp : c6State.visibleParams = (0, 1, 0, 1) := by
    unfold MapViewState.visibleParams
    norm_num [c6State, MapSource.osmDefault, clamp,
      MapSource.get_col_count, MapSource.get_row_count]
  have hcov : ∀ a b : ℤ,
      inRect c6State.visibleParams.1 c6State.visibleParams.2.1
        c6State.visibleParams.2.2.1 c6State.visibleParams.2.2.2 (a, b) →
      tileKey (c6State.map_source.get_col_count c6State.zoom : ℤ) a b
        ∈ c6State.tilemap := by
    rw [hvp]
    intro a b h
    obtain ⟨h1, h2, h3, h4⟩ :
        (0 : ℤ) ≤ a ∧ a < 1 ∧ (0 : ℤ) ≤ b ∧ b < 1 := h
    have ha : a = 0 := by omega
    have hb : b = 0 := by omega
    subst ha; subst hb
    simp [tileKey, c6State]
  have htiles : ∀ t ∈ c6State.tiles,
      inRect c6State.visibleParams.1 c6State.visibleParams.2.1
        c6State.visibleParams.2.2.1 c6State.visibleParams.2.2.2
        (t.tile_x, t.tile_y) := by
    rw [hvp]
    intro t ht
    simp only [c6State, List.mem_singleton] at ht
    subst ht
    exact (by decide : inRect 0 1 0 1 (0, 0))
  exact ⟨hcov, htiles, repeated_pass_no_downloads c6State hcov htiles⟩

/-! ## C10: eviction is partial; only `remove_all_tiles` empties the list -/

theorem evictMap_subset (xf xl yf yl cols : ℤ) :
    ∀ (tiles : List Tile) (tmap : List ℤ) (k : ℤ),
      k ∈ MapViewState.evictMap xf xl yf yl cols tiles tmap → k ∈ tmap := by
  intro tiles
  induction tiles with
  | nil => intro tmap k hk; exact hk
  | cons t rest ih =>
    intro tmap k hk
    unfold MapViewState.evictMap at hk
    rw [List.foldl_cons] at hk
    split at hk
    · exact List.mem_of_mem_filter (ih _ k hk)
    · exact ih _ k hk

theorem evictMap_not_mem (xf xl yf yl cols : ℤ) :
    ∀ (tiles : List Tile) (tmap : List ℤ) (t : Tile), t ∈ tiles →
      (t.tile_x < xf ∨ t.tile_x ≥ xl ∨ t.tile_y < yf ∨ t.tile_y ≥ yl) →
      tileKey cols t.tile_x t.tile_y
        ∉ MapViewState.evictMap xf xl yf yl cols tiles tmap := by
  intro tiles
  induction tiles with
  | nil => intro tmap t ht _; simp at ht
  | cons t₀ rest ih =>
    intro tmap t ht hout
    rcases List.mem_cons.mp ht with rfl | ht
    · unfold MapViewState.evictMap
      rw [List.foldl_cons, if_pos hout]
      intro hmem
      have hsub := evictMap_subset xf xl yf yl cols rest _ _ hmem
      rw [List.mem_filter] at hsub
      simp at hsub
    · unfold MapViewState.evictMap
      rw [List.foldl_cons]
      split
      · exact ih _ t ht hout
      · exact ih _ t ht hout

theorem evictTiles_length (xf xl yf yl : ℤ) (tiles : List Tile) :
    (MapViewState.evictTiles xf xl yf yl tiles).length = tiles.length :=
  List.length_map _ _

/-- C10: eviction in `load_visible_tiles` is partial.  An active tile whose
column or row falls outside the visible rectangle has its state set to
`"done"` and its key removed from the tile-key map, but the tile object
stays in the `_tiles` list — the post-pass list is exactly the evicted (not
shrunk) list plus the newly loaded tiles.  Only `remove_all_tiles` (called
by `unload`, `center_on`, `set_zoom_at`, resize and source changes) empties
`_tiles` and `_tilemap`, and neither operation touches the disk cache. -/
theorem eviction_partial_only_removal (st : MapViewState) (z : ℤ)
    (x y : ℚ) :
    (st.load_visible_tiles.tiles
        = MapViewState.evictTiles st.visibleParams.1 st.visibleParams.2.1
            st.visibleParams.2.2.1 st.visibleParams.2.2.2 st.tiles
          ++ st.loadVisibleCells.map st.fillNewTile) ∧
    ((MapViewState.evictTiles st.visibleParams.1 st.visibleParams.2.1
        st.visibleParams.2.2.1 st.visibleParams.2.2.2 st.tiles).length
      = st.tiles.length) ∧
    (∀ t ∈ st.tiles,
      (t.tile_x < st.visibleParams.1 ∨ t.tile_x ≥ st.visibleParams.2.1 ∨
        t.tile_y < st.visibleParams.2.2.1 ∨
        t.tile_y ≥ st.visibleParams.2.2.2) →
      { t with state := "done" } ∈ st.load_visible_tiles.tiles ∧
      tileKey (st.map_source.get_col_count st.zoom : ℤ) t.tile_x t.tile_y
        ∉ MapViewState.evictMap st.visibleParams.1 st.visibleParams.2.1
            st.visibleParams.2.2.1 st.visibleParams.2.2.2
            (st.map_source.get_col_count st.zoom : ℤ) st.tiles
            st.tilemap) ∧
    (st.remove_all_tiles.tiles = [] ∧ st.remove_all_tiles.tilemap = []) ∧
    (st.load_visible_tiles.cache = st.cache ∧
      st.remove_all_tiles.cache = st.cache ∧
      (st.set_zoom_at z x y).cache = st.cache) := by
  refine ⟨rfl, evictTiles_length _ _ _ _ _, ?_, ⟨rfl, rfl⟩, rfl, rfl, ?_⟩
  · intro t ht hout
    constructor
    · have hmem : (if t.tile_x < st.visibleParams.1 ∨
          t.tile_x ≥ st.visibleParams.2.1 ∨
          t.tile_y < st.visibleParams.2.2.1 ∨
          t.tile_y ≥ st.visibleParams.2.2.2 then
            { t with state := "done" } else t)
          ∈ MapViewState.evictTiles st.visibleParams.1 st.visibleParams.2.1
              st.visibleParams.2.2.1 st.visibleParams.2.2.2 st.tiles :=
        List.mem_map_of_mem _ ht
      rw [if_pos hout] at hmem
      exact List.mem_append_left _ hmem
    · exact evictMap_not_mem _ _ _ _ _ st.tiles st.tilemap t ht hout
  · simp only [MapViewState.set_zoom_at]
    split
    · rfl
    · simp

theorem eviction_partial_only_removal_witness :
    ({ c10Tile with state := "done" } ∈ c10State.load_visible_tiles.tiles) ∧
    tileKey (c10State.map_source.get_col_count c10State.zoom : ℤ)
        c10Tile.tile_x c10Tile.tile_y
      ∉ MapViewState.evictMap c10State.visibleParams.1
          c10State.visibleParams.2.1 c10State.visibleParams.2.2.1
          c10State.visibleParams.2.2.2
          (c10State.map_source.get_col_count c10State.zoom : ℤ)
          c10State.tiles c10State.tilemap ∧
    c10State.remove_all_tiles.tiles = [] ∧
    c10State.remove_all_tiles.tilemap = [] ∧
    (c10State.set_zoom_at 1 0 0).cache = c10State.cache := by
  have h := eviction_partial_only_removal c10State 1 0 0
  have hvp : c10State.visibleParams = (0, 1, 0, 1) := by
    unfold MapViewState.visibleParams
    norm_num [c10State, MapSource.osmDefault, clamp,
      MapSource.get_col_count, MapSource.get_row_count]
  have hmem : c10Tile ∈ c10State.tiles := List.mem_singleton.mpr rfl
  have hout := h.2.2.1 c10Tile hmem
    (by rw [hvp]; right; left; decide)
  exact ⟨hout.1, hout.2, h.2.2.2.1.1, h.2.2.2.1.2, h.2.2.2.2.2.2⟩

/-! ## C1: the projection round trip -/

theorem get_lon_get_x (s : MapSource) (zoom : ℕ) (lon : ℝ)
    (hts : 0 < s.tile_size) (h1 : -180 ≤ lon) (h2 : lon ≤ 180) :
    s.get_lon zoom (s.get_x zoom lon) = lon := by
  have hts' : (0 : ℝ) < (s.tile_size : ℝ) := by exact_mod_cast hts
  have h2z : (0 : ℝ) < (2 : ℝ) ^ zoom := by positivity
  unfold MapSource.get_x MapSource.get_lon
  rw [clamp_eq_self h1 h2]
  rw [show (lon + 180) / 360 * 2 ^ zoom * (s.tile_size : ℝ)
      / (s.tile_size : ℝ) / 2 ^ zoom * 360 - 180 = lon by
    field_simp
    ring]
  exact clamp_eq_self h1 h2

theorem get_lat_get_y (s : MapSource) (zoom : ℕ) (lat : ℝ)
    (hts : 0 < s.tile_size) (h1 : -90 < lat) (h2 : lat < 90) :
    s.get_lat zoom (s.get_y zoom lat) = lat := by
  have hts' : (0 : ℝ) < (s.tile_size : ℝ) := by exact_mod_cast hts
  have h2z : (0 : ℝ) < (2 : ℝ) ^ zoom := by positivity
  have hπ := Real.pi_pos
  set θ : ℝ := -lat * π / 180 with hθdef
  have hθ1 : -(π / 2) < θ := by
    have hp : 0 < (90 - lat) * π := by
      apply mul_pos (by linarith) hπ
    rw [hθdef]
    nlinarith
  have hθ2 : θ < π / 2 := by
    have hp : 0 < (lat + 90) * π := by
      apply mul_pos (by linarith) hπ
    rw [hθdef]
    nlinarith
  have hcos : 0 < Real.cos θ := Real.cos_pos_of_mem_Ioo ⟨hθ1, hθ2⟩
  have hsin : -1 < Real.sin θ := by
    rcases lt_or_eq_of_le (Real.neg_one_le_sin θ) with h | h
    · exact h
    · exfalso
      have hid := Real.sin_sq_add_cos_sq θ
      nlinarith [mul_pos hcos hcos]
  have hA : Real.tan θ + 1 / Real.cos θ = (Real.sin θ + 1) / Real.cos θ := by
    rw [Real.tan_eq_sin_div_cos]
    field_simp
  have hApos : 0 < (Real.sin θ + 1) / Real.cos θ :=
    div_pos (by linarith) hcos
  unfold MapSource.get_y MapSource.get_lat
  rw [clamp_eq_self (by linarith : (-90 : ℝ) ≤ -lat)
    (by linarith : -lat ≤ 90)]
  rw [← hθdef, hA]
  rw [show π - 2 * π * ((1 - Real.log ((Real.sin θ + 1) / Real.cos θ) / π)
        / 2 * 2 ^ zoom * (s.tile_size : ℝ) / (s.tile_size : ℝ)) / 2 ^ zoom
      = Real.log ((Real.sin θ + 1) / Real.cos θ) by
    field_simp
    ring]
  rw [Real.exp_log hApos, Real.exp_neg, Real.exp_log hApos]
  have hinv : ((Real.sin θ + 1) / Real.cos θ)⁻¹
      = (1 - Real.sin θ) / Real.cos θ := by
    rw [inv_div]
    rw [div_eq_div_iff (by linarith) (ne_of_gt hcos)]
    have := Real.cos_sq' θ
    nlinarith
  rw [hinv]
  rw [show (0.5 : ℝ) * ((Real.sin θ + 1) / Real.cos θ
        - (1 - Real.sin θ) / Real.cos θ) = Real.tan θ by
    rw [Real.tan_eq_sin_div_cos]
    field_simp
    ring]
  rw [Real.arctan_tan hθ1 hθ2]
  rw [show -(180 / π) * θ = lat by
    rw [hθdef]
    field_simp
    ring]
  exact clamp_eq_self (by linarith) (by linarith)

/-- C1 amended: for every zoom, every longitude in `[-180, 180]` and every
latitude in the open interval `(-90, 90)`, the pixel projection and its
inverse are exact round-trip inverses (`get_lon ∘ get_x` and
`get_lat ∘ get_y` are the identity), including the sign conventions
(`get_y` negates the latitude, `get_lat` carries the leading minus).  At
the poles `lat = ±90` the Mercator formula itself is singular
(`1/cos(±π/2)`, `log 0`) and the exact round trip fails, so they are
excluded. -/
theorem projection_roundtrip (s : MapSource) (zoom : ℕ) (lon lat : ℝ)
    (hts : 0 < s.tile_size) (hlon1 : -180 ≤ lon) (hlon2 : lon ≤ 180)
    (hlat1 : -90 < lat) (hlat2 : lat < 90) :
    s.get_lon zoom (s.get_x zoom lon) = lon ∧
    s.get_lat zoom (s.get_y zoom lat) = lat :=
  ⟨get_lon_get_x s zoom lon hts hlon1 hlon2,
    get_lat_get_y s zoom lat hts hlat1 hlat2⟩

theorem projection_roundtrip_witness :
    ((0 : ℚ) < MapSource.osmDefault.tile_size ∧ (-180 : ℝ) ≤ 45 ∧
      (45 : ℝ) ≤ 180 ∧ (-90 : ℝ) < 45 ∧ (45 : ℝ) < 90) ∧
    (MapSource.osmDefault.get_lon 3 (MapSource.osmDefault.get_x 3 45)
        = 45 ∧
      MapSource.osmDefault.get_lat 3 (MapSource.osmDefault.get_y 3 45)
        = 45) :=
  ⟨⟨by norm_num [MapSource.osmDefault], by norm_num, by norm_num,
      by norm_num, by norm_num⟩,
    projection_roundtrip MapSource.osmDefault 3 45 45
      (by norm_num [MapSource.osmDefault]) (by norm_num) (by norm_num)
      (by norm_num) (by norm_num)⟩

/-- C1, as stated, fails at the pole: in exact arithmetic
`get_y(0, 90)` passes through `tan(-π/2)`, `1/cos(-π/2)` and `log 0`
(all singular; the code only returns a finite value because floating point
cannot represent `π/2` exactly), producing the half-map pixel `128`, and
`get_lat(0, 128) = 0 ≠ 90`. -/
theorem projection_pole_counterexample :
    MapSource.osmDefault.get_lat 0 (MapSource.osmDefault.get_y 0 90) = 0 ∧
    (0 : ℝ) ≠ 90 := by
  constructor
  · have hy : MapSource.osmDefault.get_y 0 90 = 128 := by
      unfold MapSource.get_y
      rw [show clamp (-(90 : ℝ)) (-90) 90 = -90 by norm_num [clamp]]
      rw [show -(90 : ℝ) * π / 180 = -(π / 2) by ring]
      rw [Real.tan_neg, Real.tan_pi_div_two, Real.cos_neg,
        Real.cos_pi_div_two]
      norm_num [Real.log_zero, MapSource.osmDefault]
    rw [hy]
    unfold MapSource.get_lat
    rw [show π - 2 * π
          * ((128 : ℝ) / ((MapSource.osmDefault.tile_size : ℚ) : ℝ))
          / 2 ^ (0 : ℕ) = 0 by
      norm_num [MapSource.osmDefault]
      ring]
    norm_num [Real.exp_zero, Real.arctan_zero, clamp]
  · norm_num

/-! ## C5: zoom-anchored re-centering -/

theorem get_x_get_lon_zoom (s : MapSource) (c t : ℕ) (w : ℝ)
    (hts : 0 < s.tile_size) (h0 : 0 ≤ w)
    (h1 : w ≤ (s.tile_size : ℝ) * 2 ^ c) :
    s.get_x t (s.get_lon c w) = w * (2 : ℝ) ^ ((t : ℤ) - (c : ℤ)) := by
  have hts' : (0 : ℝ) < (s.tile_size : ℝ) := by exact_mod_cast hts
  have h2c : (0 : ℝ) < (2 : ℝ) ^ c := by positivity
  unfold MapSource.get_lon MapSource.get_x
  have hq : w / (s.tile_size : ℝ) / 2 ^ c ≤ 1 := by
    rw [div_div, div_le_one (by positivity)]
    exact h1
  have hq0 : 0 ≤ w / (s.tile_size : ℝ) / 2 ^ c := by positivity
  have hb1 : (-180 : ℝ) ≤ w / (s.tile_size : ℝ) / 2 ^ c * 360 - 180 := by
    nlinarith
  have hb2 : w / (s.tile_size : ℝ) / 2 ^ c * 360 - 180 ≤ 180 := by
    nlinarith
  rw [clamp_eq_self hb1 hb2, clamp_eq_self hb1 hb2]
  rw [zpow_sub₀ (by norm_num : (2 : ℝ) ≠ 0), zpow_natCast, zpow_natCast]
  field_simp
  ring

theorem get_y_get_lat_zoom (s : MapSource) (c t : ℕ) (w : ℝ)
    (hts : 0 < s.tile_size) :
    s.get_y t (s.get_lat c w) = w * (2 : ℝ) ^ ((t : ℤ) - (c : ℤ)) := by
  have hts' : (0 : ℝ) < (s.tile_size : ℝ) := by exact_mod_cast hts
  have hπ := Real.pi_pos
  set n : ℝ := π - 2 * π * (w / (s.tile_size : ℝ)) / 2 ^ c with hn
  set u : ℝ := 0.5 * (Real.exp n - Real.exp (-n)) with hu
  have harc1 := Real.neg_pi_div_two_lt_arctan u
  have harc2 := Real.arctan_lt_pi_div_two u
  have hfr : (0 : ℝ) < 180 / π := by positivity
  have hlo : (-90 : ℝ) < 180 / π * Real.arctan u := by
    have h := mul_lt_mul_of_pos_left harc1 hfr
    have he : 180 / π * -(π / 2) = -90 := by
      field_simp
      ring
    linarith
  have hhi : 180 / π * Real.arctan u < 90 := by
    have h := mul_lt_mul_of_pos_left harc2 hfr
    have he : 180 / π * (π / 2) = 90 := by
      field_simp
      ring
    linarith
  unfold MapSource.get_lat MapSource.get_y
  rw [← hn, ← hu]
  rw [clamp_eq_self (by linarith : (-90 : ℝ) ≤ -(180 / π) * Real.arctan u)
    (by linarith : -(180 / π) * Real.arctan u ≤ 90)]
  rw [show -(-(180 / π) * Real.arctan u) = 180 / π * Real.arctan u by ring]
  rw [clamp_eq_self (by linarith) (by linarith)]
  rw [show 180 / π * Real.arctan u * π / 180 = Real.arctan u by
    field_simp]
  rw [Real.tan_arctan, Real.cos_arctan, one_div_one_div]
  have hprod : Real.exp n * Real.exp (-n) = 1 := by
    rw [← Real.exp_add]
    simp
  have hsq : (0.5 * (Real.exp n + Real.exp (-n))) ^ 2 = 1 + u ^ 2 := by
    rw [hu]
    linear_combination hprod
  have hpos : (0 : ℝ) < 0.5 * (Real.exp n + Real.exp (-n)) := by positivity
  have hsqrt : Real.sqrt (1 + u ^ 2)
      = 0.5 * (Real.exp n + Real.exp (-n)) := by
    rw [← hsq, Real.sqrt_sq (le_of_lt hpos)]
  rw [hsqrt]
  rw [show u + 0.5 * (Real.exp n + Real.exp (-n)) = Real.exp n by
    rw [hu]
    ring]
  rw [Real.log_exp, hn]
  rw [zpow_sub₀ (by norm_num : (2 : ℝ) ≠ 0), zpow_natCast, zpow_natCast]
  field_simp
  ring

theorem set_zoom_at_apply (st : MapViewState) (z : ℤ) (x y : ℚ)
    (h0 : 0 ≤ z) (h19 : z ≤ 19) (hne : z ≠ (st.zoom : ℤ)) :
    (st.set_zoom_at z x y).zoom = z.toNat ∧
    (st.set_zoom_at z x y).viewport_x
      = (st.viewport_x + x) * (2 : ℚ) ^ (z - (st.zoom : ℤ)) - x ∧
    (st.set_zoom_at z x y).viewport_y
      = (st.viewport_y + y) * (2 : ℚ) ^ (z - (st.zoom : ℤ)) - y := by
  have hcl : clamp z st.map_source.get_min_zoom st.map_source.get_max_zoom
      = z := by
    simp only [MapSource.get_min_zoom, MapSource.get_max_zoom, clamp]
    omega
  simp only [MapViewState.set_zoom_at, MapViewState.getXYForZoomLevel, hcl]
  rw [if_neg hne]
  exact ⟨rfl, rfl, rfl⟩

/-- C5: after `set_zoom_at(z, x, y)` with a valid target zoom `z` different
from the current one, the new viewport offset on each axis equals
`(oldOffset + anchor) * 2^(z - currentZoom) - anchor`, and consequently the
geographic coordinate that was under screen point `(x, y)` before the call
maps back exactly to `(x, y)` at the new zoom (for the longitude axis this
needs the anchor's world pixel to lie inside the map's pixel range). -/
theorem set_zoom_at_anchored (st : MapViewState) (z : ℤ) (x y : ℚ)
    (hts : 0 < st.map_source.tile_size)
    (h0 : 0 ≤ z) (h19 : z ≤ 19) (hne : z ≠ (st.zoom : ℤ))
    (hw0 : 0 ≤ st.viewport_x + x)
    (hw1 : st.viewport_x + x ≤ st.map_source.tile_size * 2 ^ st.zoom) :
    ((st.set_zoom_at z x y).viewport_x
        = (st.viewport_x + x) * (2 : ℚ) ^ (z - (st.zoom : ℤ)) - x ∧
      (st.set_zoom_at z x y).viewport_y
        = (st.viewport_y + y) * (2 : ℚ) ^ (z - (st.zoom : ℤ)) - y) ∧
    st.map_source.get_x (st.set_zoom_at z x y).zoom
        (st.map_source.get_lon st.zoom ((st.viewport_x : ℝ) + (x : ℝ)))
      - ((st.set_zoom_at z x y).viewport_x : ℝ) = (x : ℝ) ∧
    st.map_source.get_y (st.set_zoom_at z x y).zoom
        (st.map_source.get_lat st.zoom ((st.viewport_y : ℝ) + (y : ℝ)))
      - ((st.set_zoom_at z x y).viewport_y : ℝ) = (y : ℝ) := by
  obtain ⟨hz, hvx, hvy⟩ := set_zoom_at_apply st z x y h0 h19 hne
  have hzz : ((z.toNat : ℕ) : ℤ) = z := Int.toNat_of_nonneg h0
  refine ⟨⟨hvx, hvy⟩, ?_, ?_⟩
  · rw [hz, hvx]
    have hbound : (st.viewport_x : ℝ) + (x : ℝ)
        ≤ (st.map_source.tile_size : ℝ) * 2 ^ st.zoom := by
      exact_mod_cast hw1
    have hx := get_x_get_lon_zoom st.map_source st.zoom z.toNat
      ((st.viewport_x : ℝ) + (x : ℝ)) hts (by exact_mod_cast hw0) hbound
    rw [hx, hzz]
    push_cast
    ring
  · rw [hz, hvy]
    have hy := get_y_get_lat_zoom st.map_source st.zoom z.toNat
      ((st.viewport_y : ℝ) + (y : ℝ)) hts
    rw [hy, hzz]
    push_cast
    ring

theorem set_zoom_at_anchored_witness :
    ((0 : ℚ) < c5State.map_source.tile_size ∧ (0 : ℤ) ≤ 6 ∧ (6 : ℤ) ≤ 19 ∧
      (6 : ℤ) ≠ (c5State.zoom : ℤ) ∧ (0 : ℚ) ≤ c5State.viewport_x + 50 ∧
      c5State.viewport_x + 50
        ≤ c5State.map_source.tile_size * 2 ^ c5State.zoom) ∧
    (((c5State.set_zoom_at 6 50 60).viewport_x
        = (c5State.viewport_x + 50) * (2 : ℚ) ^ ((6 : ℤ) - (c5State.zoom : ℤ))
          - 50 ∧
      (c5State.set_zoom_at 6 50 60).viewport_y
        = (c5State.viewport_y + 60) * (2 : ℚ) ^ ((6 : ℤ) - (c5State.zoom : ℤ))
          - 60) ∧
    c5State.map_source.get_x (c5State.set_zoom_at 6 50 60).zoom
        (c5State.map_source.get_lon c5State.zoom
          ((c5State.viewport_x : ℝ) + ((50 : ℚ) : ℝ)))
      - ((c5State.set_zoom_at 6 50 60).viewport_x : ℝ) = ((50 : ℚ) : ℝ) ∧
    c5State.map_source.get_y (c5State.set_zoom_at 6 50 60).zoom
        (c5State.map_source.get_lat c5State.zoom
          ((c5State.viewport_y : ℝ) + ((60 : ℚ) : ℝ)))
      - ((c5State.set_zoom_at 6 50 60).viewport_y : ℝ) = ((60 : ℚ) : ℝ)) :=
  ⟨⟨by decide, by decide, by decide, by decide,
      by norm_num [c5State], by norm_num [c5State, MapSource.osmDefault]⟩,
    set_zoom_at_anchored c5State 6 50 60 (by decide) (by decide) (by decide)
      (by decide) (by norm_num [c5State])
      (by norm_num [c5State, MapSource.osmDefault])⟩
